import Mathlib

/-!
Verification of the reddit-image-downloader acquisition pipeline.

The Go source (`main.go`, `reddit.go`, `imgur.go`) is shallowly embedded:
pure fragments become Lean functions, the stateful consumer pipeline is
modelled by explicit state passing over a `St` record, and the crawl
scheduler goroutine becomes a fuel-indexed recursion producing the list
of items it pushes to the output stream.  External collaborators (the
HTTP client, the image codec, the path templating, `os.Stat`, the album
API) are parameters of an `Env` record.
-/

namespace RID

/-- `SubmissionData` from reddit.go (the fields the pipeline reads). -/
structure Submission where
  title : String
  id : String
  isMeta : Bool
  postHint : String
  domain : String
  score : Int
  nsfw : Bool
  url : String
  permalink : String
  subreddit : String
  deriving DecidableEq, Inhabited

/-- `Listing`/`ListingData` from reddit.go: one page of a source plus the
continuation cursor (`After`; `""` means the source is exhausted). -/
structure Listing where
  children : List Submission
  after : String
  deriving DecidableEq, Inhabited

/-! ## Crawl scheduler (the producer goroutine of `main`, main.go 203-273)

A source is modelled by the stream of listings its successive fetches
return: `f s i` is the listing the `i`-th successful fetch of source `s`
yields.  Because every non-completed source is fetched exactly once per
round, the `i`-th fetch of a still-active source happens in round `i`. -/

/-- Items one round pushes to the `submissions` channel: for every source
index `s < n` that is not yet completed, the page's children with meta
submissions filtered out (main.go 251-256), tagged with the source. -/
def roundOut (f : Nat → Nat → Listing) (n r : Nat) (completed : Nat → Bool) :
    List (Nat × Submission) :=
  ((List.range n).map (fun s =>
    if completed s then []
    else ((f s r).children.filter (fun x => !x.isMeta)).map (fun x => (s, x)))).flatten

/-- The `completed[sub] = true` update after round `r` (main.go 258-263). -/
def stepCompleted (f : Nat → Nat → Listing) (r : Nat) (completed : Nat → Bool) :
    Nat → Bool :=
  fun s => completed s || ((f s r).after == "")

/-- `allCompleted` as computed at the top of a round (main.go 213-216). -/
def allDone (n : Nat) (completed : Nat → Bool) : Bool :=
  (List.range n).all completed

/-- The scheduler loop from round `r` on, with `fuel` remaining rounds
allowed: returns `some` of the emitted stream when the loop breaks
(i.e. the channel gets closed), `none` when fuel runs out first. -/
def runRounds (f : Nat → Nat → Listing) (n : Nat) :
    Nat → Nat → (Nat → Bool) → Option (List (Nat × Submission))
  | 0, _, _ => none
  | fuel + 1, r, completed =>
    if allDone n completed then some []
    else
      match runRounds f n fuel (r + 1) (stepCompleted f r completed) with
      | none => none
      | some rest => some (roundOut f n r completed ++ rest)

/-- The whole scheduler goroutine: all cursors start empty, no source is
completed (main.go 204-209). -/
def schedulerRun (f : Nat → Nat → Listing) (n fuel : Nat) :
    Option (List (Nat × Submission)) :=
  runRounds f n fuel 0 (fun _ => false)

/-- Whether source `s` is completed at the start of round `r`: some fetch
strictly before `r` returned an empty continuation cursor. -/
def complAt (f : Nat → Nat → Listing) (s r : Nat) : Bool :=
  (List.range r).any (fun i => (f s i).after == "")

/-- The items source `s` contributes for its first `k` pages, in page
order and in-page order, meta submissions removed. -/
def sourcePages (f : Nat → Nat → Listing) (s k : Nat) : List (Nat × Submission) :=
  ((List.range k).map (fun i =>
    ((f s i).children.filter (fun x => !x.isMeta)).map (fun x => (s, x)))).flatten

/-- Pages `r, r+1, ..., r+k-1` of source `s`, tagged. -/
def sourcePagesFrom (f : Nat → Nat → Listing) (s r k : Nat) : List (Nat × Submission) :=
  ((List.range' r k).map (fun i =>
    ((f s i).children.filter (fun x => !x.isMeta)).map (fun x => (s, x)))).flatten

lemma complAt_zero (f : Nat → Nat → Listing) (s : Nat) : complAt f s 0 = false := by
  simp [complAt]

lemma complAt_succ (f : Nat → Nat → Listing) (s r : Nat) :
    complAt f s (r + 1) = (complAt f s r || ((f s r).after == "")) := by
  simp [complAt, List.range_succ]

lemma stepCompleted_complAt (f : Nat → Nat → Listing) (r : Nat) :
    stepCompleted f r (fun s => complAt f s r) = fun s => complAt f s (r + 1) := by
  funext s
  simp [stepCompleted, complAt_succ]

lemma complAt_false_of_succ (f : Nat → Nat → Listing) (s r : Nat)
    (h : complAt f s (r + 1) = false) : complAt f s r = false := by
  rw [complAt_succ] at h
  exact (Bool.or_eq_false_iff.mp h).1

lemma allDone_iff (n : Nat) (c : Nat → Bool) :
    allDone n c = true ↔ ∀ s, s < n → c s = true := by
  simp [allDone, List.all_eq_true, List.mem_range]

lemma exists_uniform_bound (n : Nat) (p : Nat → Nat → Prop)
    (h : ∀ s, s < n → ∃ i, p s i) : ∃ R, ∀ s, s < n → ∃ i, i < R ∧ p s i := by
  induction n with
  | zero => exact ⟨0, fun s hs => absurd hs (Nat.not_lt_zero s)⟩
  | succ m ih =>
    obtain ⟨R, hR⟩ := ih (fun s hs => h s (Nat.lt_succ_of_lt hs))
    obtain ⟨i, hi⟩ := h m (Nat.lt_succ_self m)
    refine ⟨max R (i + 1), fun s hs => ?_⟩
    rcases Nat.lt_succ_iff_lt_or_eq.mp hs with hlt | rfl
    · obtain ⟨j, hj, hpj⟩ := hR s hlt
      exact ⟨j, lt_of_lt_of_le hj (le_max_left _ _), hpj⟩
    · exact ⟨i, lt_of_lt_of_le (Nat.lt_succ_self i) (le_max_right _ _), hi⟩

lemma runRounds_total (f : Nat → Nat → Listing) (n : Nat) :
    ∀ (m r : Nat), allDone n (fun s => complAt f s (r + m)) = true →
    ∃ out, runRounds f n (m + 1) r (fun s => complAt f s r) = some out := by
  intro m
  induction m with
  | zero =>
    intro r h
    rw [Nat.add_zero] at h
    exact ⟨[], by simp [runRounds, h]⟩
  | succ m ih =>
    intro r h
    by_cases hd : allDone n (fun s => complAt f s r) = true
    · exact ⟨[], by simp [runRounds, hd]⟩
    · have h' : allDone n (fun s => complAt f s ((r + 1) + m)) = true := by
        have : (r + 1) + m = r + (m + 1) := by omega
        rw [this]; exact h
      obtain ⟨rest, hrest⟩ := ih (r + 1) h'
      refine ⟨roundOut f n r (fun s => complAt f s r) ++ rest, ?_⟩
      show runRounds f n (m + 1 + 1) r (fun s => complAt f s r) = _
      rw [runRounds]
      rw [if_neg hd, stepCompleted_complAt, hrest]

lemma runRounds_some (f : Nat → Nat → Listing) (n : Nat) :
    ∀ (fuel r : Nat) (c : Nat → Bool) (out : List (Nat × Submission)),
    runRounds f n fuel r c = some out →
    ∀ s, s < n → c s = true ∨ ∃ i, r ≤ i ∧ (f s i).after = "" := by
  intro fuel
  induction fuel with
  | zero => intro r c out h; simp [runRounds] at h
  | succ fuel ih =>
    intro r c out h s hs
    rw [runRounds] at h
    by_cases hd : allDone n c = true
    · exact Or.inl ((allDone_iff n c).mp hd s hs)
    · rw [if_neg hd] at h
      cases hrec : runRounds f n fuel (r + 1) (stepCompleted f r c) with
      | none => rw [hrec] at h; exact absurd h (by simp)
      | some rest =>
        rcases ih (r + 1) (stepCompleted f r c) rest hrec s hs with hc | ⟨i, hir, hie⟩
        · by_cases hcs : c s = true
          · exact Or.inl hcs
          · have : ((f s r).after == "") = true := by
              have := hc
              simp only [stepCompleted] at this
              rcases Bool.or_eq_true_iff.mp this with h1 | h2
              · exact absurd h1 hcs
              · exact h2
            exact Or.inr ⟨r, le_refl r, by simpa using this⟩
        · exact Or.inr ⟨i, le_trans (Nat.le_succ r) hir, hie⟩

lemma complAt_true_iff (f : Nat → Nat → Listing) (s r : Nat) :
    complAt f s r = true ↔ ∃ i, i < r ∧ (f s i).after = "" := by
  simp [complAt, List.any_eq_true, List.mem_range]

lemma complAt_false_iff (f : Nat → Nat → Listing) (s r : Nat) :
    complAt f s r = false ↔ ∀ i, i < r → (f s i).after ≠ "" := by
  simp [complAt, List.any_eq_false, List.mem_range]

lemma filter_tag_map (s t : Nat) (l : List Submission) :
    (l.map (fun x => (t, x))).filter (fun p => p.1 == s) =
      if t = s then l.map (fun x => (t, x)) else [] := by
  rw [List.filter_map]
  by_cases h : t = s
  · subst h
    simp [Function.comp_def]
  · simp [Function.comp_def, h]

lemma emit_filter (f : Nat → Nat → Listing) (r : Nat) (c : Nat → Bool) (s : Nat) :
    ∀ (idxs : List Nat), idxs.Nodup →
    (((idxs.map (fun t => if c t then []
        else ((f t r).children.filter (fun x => !x.isMeta)).map (fun x => (t, x)))).flatten).filter
      (fun p => p.1 == s)) =
    (if s ∈ idxs ∧ c s = false
     then ((f s r).children.filter (fun x => !x.isMeta)).map (fun x => (s, x))
     else []) := by
  intro idxs
  induction idxs with
  | nil => intro _; simp
  | cons a idxs ih =>
    intro hnd
    rw [List.map_cons, List.flatten_cons, List.filter_append,
      ih (List.Nodup.of_cons hnd)]
    by_cases hac : c a = true
    · rw [if_pos hac]
      by_cases hmem : s ∈ a :: idxs ∧ c s = false
      · rcases hmem with ⟨hm, hcs⟩
        have has : a ≠ s := by
          intro h; subst h; rw [hac] at hcs; exact absurd hcs (by simp)
        have hm' : s ∈ idxs := by
          cases List.mem_cons.mp hm with
          | inl h => exact absurd h.symm has
          | inr h => exact h
        rw [if_pos ⟨hm', hcs⟩, if_pos ⟨List.mem_cons_of_mem a hm', hcs⟩]
        rfl
      · have hnot : ¬(s ∈ idxs ∧ c s = false) := by
          intro ⟨h1, h2⟩; exact hmem ⟨List.mem_cons_of_mem a h1, h2⟩
        rw [if_neg hmem, if_neg hnot]
        rfl
    · rw [if_neg hac, filter_tag_map]
      by_cases has : a = s
      · subst has
        have hca : c a = false := by
          cases h : c a with
          | false => rfl
          | true => exact absurd h hac
        have hnotmem : a ∉ idxs := (List.nodup_cons.mp hnd).1
        have hnot : ¬(a ∈ idxs ∧ c a = false) := fun ⟨h1, _⟩ => hnotmem h1
        rw [if_pos rfl, if_neg hnot, if_pos ⟨List.mem_cons_self a idxs, hca⟩]
        exact List.append_nil _
      · rw [if_neg has]
        by_cases hmem : s ∈ idxs ∧ c s = false
        · rw [if_pos hmem, if_pos ⟨List.mem_cons_of_mem a hmem.1, hmem.2⟩]
          rfl
        · have hnot : ¬(s ∈ a :: idxs ∧ c s = false) := by
            intro ⟨h1, h2⟩
            cases List.mem_cons.mp h1 with
            | inl h => exact has h.symm
            | inr h => exact hmem ⟨h, h2⟩
          rw [if_neg hmem, if_neg hnot]
          rfl

lemma roundOut_filter (f : Nat → Nat → Listing) (n r : Nat) (c : Nat → Bool)
    (s : Nat) (hs : s < n) :
    (roundOut f n r c).filter (fun p => p.1 == s) =
      (if c s then []
       else ((f s r).children.filter (fun x => !x.isMeta)).map (fun x => (s, x))) := by
  rw [roundOut, emit_filter f r c s (List.range n) (List.nodup_range n)]
  by_cases hcs : c s = true
  · rw [if_pos hcs]
    rw [if_neg]
    intro ⟨_, h2⟩
    rw [hcs] at h2
    exact absurd h2 (by simp)
  · have hcs' : c s = false := by
      cases h : c s with
      | false => rfl
      | true => exact absurd h hcs
    rw [if_pos ⟨List.mem_range.mpr hs, hcs'⟩, if_neg hcs]

lemma sourcePagesFrom_one (f : Nat → Nat → Listing) (s r : Nat) :
    sourcePagesFrom f s r 1 =
      ((f s r).children.filter (fun x => !x.isMeta)).map (fun x => (s, x)) := by
  simp [sourcePagesFrom]

lemma sourcePagesFrom_cons (f : Nat → Nat → Listing) (s r k : Nat) :
    sourcePagesFrom f s r (k + 1) =
      ((f s r).children.filter (fun x => !x.isMeta)).map (fun x => (s, x)) ++
        sourcePagesFrom f s (r + 1) k := by
  rw [sourcePagesFrom, List.range'_succ, List.map_cons, List.flatten_cons]
  rfl

lemma runRounds_filter (f : Nat → Nat → Listing) (n s : Nat) (hs : s < n) (k : Nat)
    (hk : (f s k).after = "") :
    ∀ (fuel r : Nat) (out : List (Nat × Submission)),
    runRounds f n fuel r (fun t => complAt f t r) = some out →
    (complAt f s r = true → out.filter (fun p => p.1 == s) = [])
    ∧ (complAt f s r = false → (∀ j, j < k → (f s j).after ≠ "") →
        out.filter (fun p => p.1 == s) = sourcePagesFrom f s r (k + 1 - r)) := by
  intro fuel
  induction fuel with
  | zero => intro r out h; simp [runRounds] at h
  | succ fuel ih =>
    intro r out h
    rw [runRounds] at h
    by_cases hd : allDone n (fun t => complAt f t r) = true
    · rw [if_pos hd] at h
      have hout : out = [] := (Option.some.inj h).symm
      subst hout
      refine ⟨fun _ => rfl, fun hfalse _ => ?_⟩
      have := (allDone_iff n (fun t => complAt f t r)).mp hd s hs
      rw [hfalse] at this
      exact absurd this (by simp)
    · rw [if_neg hd] at h
      cases hrec : runRounds f n fuel (r + 1) (stepCompleted f r (fun t => complAt f t r)) with
      | none =>
        rw [hrec] at h
        exact absurd h (by simp)
      | some rest =>
        rw [hrec] at h
        have hout : out = roundOut f n r (fun t => complAt f t r) ++ rest :=
          (Option.some.inj h).symm
        subst hout
        rw [stepCompleted_complAt] at hrec
        have IH := ih (r + 1) rest hrec
        rw [List.filter_append, roundOut_filter f n r _ s hs]
        constructor
        · intro htrue
          have hsucc : complAt f s (r + 1) = true := by
            rw [complAt_succ, htrue]; rfl
          rw [if_pos htrue, IH.1 hsucc]
          rfl
        · intro hfalse hleast
          have hcsf : ¬(complAt f s r = true) := by rw [hfalse]; simp
          rw [if_neg hcsf]
          have hrk : r ≤ k := by
            by_contra hcon
            exact ((complAt_false_iff f s r).mp hfalse k (Nat.lt_of_not_le hcon)) hk
          by_cases hkr : k = r
          · subst hkr
            have hbeq : ((f s k).after == "") = true := beq_iff_eq.mpr hk
            have hsucc : complAt f s (k + 1) = true := by
              rw [complAt_succ, hbeq]
              simp
            rw [IH.1 hsucc]
            have : k + 1 - k = 1 := by omega
            rw [this, sourcePagesFrom_one, List.append_nil]
          · have hrltk : r < k := Nat.lt_of_le_of_ne hrk (fun h => hkr h.symm)
            have hne : (f s r).after ≠ "" := hleast r hrltk
            have hsucc : complAt f s (r + 1) = false := by
              rw [complAt_succ, hfalse]
              simp [hne]
            have hrest := IH.2 hsucc hleast
            have h1 : k + 1 - (r + 1) = k - r := by omega
            have h2 : k + 1 - r = (k - r) + 1 := by omega
            rw [hrest, h1, h2, sourcePagesFrom_cons]

lemma sourcePagesFrom_zero (f : Nat → Nat → Listing) (s m : Nat) :
    sourcePagesFrom f s 0 m = sourcePages f s m := by
  rw [sourcePagesFrom, sourcePages, List.range_eq_range']

lemma complAt_zero_fun (f : Nat → Nat → Listing) :
    (fun t => complAt f t 0) = (fun _ => false) :=
  funext (complAt_zero f)

/-- C1: for every family of per-source page streams, the crawl scheduler
terminates (closing the output stream) iff every source eventually
returns an empty continuation cursor, and whenever it terminates, the
emitted stream restricted to a source is exactly that source's pages up
to and including its first empty-cursor page, in page order and in-page
order. -/
theorem crawl_scheduler_order_and_termination (f : Nat → Nat → Listing) (n : Nat) :
    ((∃ fuel out, schedulerRun f n fuel = some out) ↔
      ∀ s, s < n → ∃ i, (f s i).after = "")
    ∧ (∀ fuel out, schedulerRun f n fuel = some out → ∀ s, s < n →
        ∃ k, (f s k).after = "" ∧ (∀ j, j < k → (f s j).after ≠ "") ∧
          out.filter (fun p => p.1 == s) = sourcePages f s (k + 1)) := by
  constructor
  · constructor
    · rintro ⟨fuel, out, h⟩ s hs
      rw [schedulerRun, ← complAt_zero_fun f] at h
      rcases runRounds_some f n fuel 0 _ out h s hs with hc | ⟨i, _, hie⟩
      · rw [complAt_zero] at hc
        exact absurd hc (by simp)
      · exact ⟨i, hie⟩
    · intro hall
      obtain ⟨R, hR⟩ := exists_uniform_bound n (fun s i => (f s i).after = "") hall
      have hAD : allDone n (fun s => complAt f s (0 + R)) = true := by
        rw [allDone_iff]
        intro s hs
        rw [Nat.zero_add, complAt_true_iff]
        exact hR s hs
      obtain ⟨out, hout⟩ := runRounds_total f n R 0 hAD
      refine ⟨R + 1, out, ?_⟩
      rw [schedulerRun, ← complAt_zero_fun f]
      exact hout
  · intro fuel out h s hs
    rw [schedulerRun, ← complAt_zero_fun f] at h
    have hex : ∃ i, (f s i).after = "" := by
      rcases runRounds_some f n fuel 0 _ out h s hs with hc | ⟨i, _, hie⟩
      · rw [complAt_zero] at hc
        exact absurd hc (by simp)
      · exact ⟨i, hie⟩
    refine ⟨Nat.find hex, Nat.find_spec hex, fun j hj => Nat.find_min hex hj, ?_⟩
    have hfil := (runRounds_filter f n s hs (Nat.find hex) (Nat.find_spec hex)
        fuel 0 out h).2 (complAt_zero f s) (fun j hj => Nat.find_min hex hj)
    rw [hfil, Nat.sub_zero, sourcePagesFrom_zero]

/-- A concrete submission for scheduler tests. -/
def subEx1 : Submission :=
  ⟨"t1", "id1", false, "image", "example.com", 1, false, "http://e/1", "p1", "r1"⟩

/-- A page with one item and a non-empty continuation cursor. -/
def pageMore : Listing := ⟨[subEx1], "cursor1"⟩

/-- The final page of a source: no items, empty continuation cursor. -/
def pageLast : Listing := ⟨[], ""⟩

/-- Two sources: source 0 has two pages (the second empty-cursored),
source 1 is exhausted immediately. -/
def fEx : Nat → Nat → Listing := fun s i =>
  if s = 0 ∧ i = 0 then pageMore else pageLast

theorem crawl_scheduler_witness :
    ∃ fuel out, schedulerRun fEx 2 fuel = some out :=
  (crawl_scheduler_order_and_termination fEx 2).1.mpr
    (fun s _ => ⟨1, by simp [fEx, pageLast]⟩)

/-! ## The consumer pipeline (main.go 275-283, 322-624, 644-677) -/

/-- Result of an `os.Stat` probe, as the two writer branches inspect it:
no error, the "does not exist" error, or any other error. -/
inductive StatRes
  | ok
  | notExist
  | otherErr
  deriving DecidableEq

/-- What `image.DecodeConfig` yields: pixel width and height and the
declared image type. -/
structure ImgCfg where
  width : Nat
  height : Nat
  imgType : String
  deriving DecidableEq

/-- `AlbumImage` from imgur.go. -/
structure AlbumImage where
  hash : String
  title : String
  ext : String
  datetime : String
  deriving DecidableEq

/-- `Album`/`AlbumData` from imgur.go (the field the loop reads). -/
structure Album where
  images : List AlbumImage
  deriving DecidableEq

/-- The process-wide configuration `main` assembles from flags. -/
structure Config where
  skipDuplicates : Bool
  skipDuplicatesInAlbums : Bool
  noAlbums : Bool
  overwrite : Bool
  nsfw : Bool
  quiet : Bool
  minScore : Int
  minSize : Nat
  maxSize : Nat
  minWidth : Nat
  maxWidth : Nat
  minHeight : Nat
  maxHeight : Nat
  noPortrait : Bool
  noLandscape : Bool
  noSquare : Bool
  parseImages : Bool
  allowTypes : List String
  outputRoot : String
  deriving DecidableEq

/-- An HTTP response as the fetchers inspect it: status code, the final
request URL's host and path (after redirects), content type, body. -/
structure HttpResponse where
  statusCode : Nat
  finalHost : String
  finalPath : String
  contentType : String
  body : List Nat
  deriving DecidableEq

/-- External collaborators: the HTTP client, the image codec, sha256,
`os.Stat`, the two path templates (covering extension resolution), URL
parsing (yielding the path component) and the imgur album API. -/
structure Env where
  http : String → Option HttpResponse
  decodeConfig : List Nat → Option ImgCfg
  sha : List Nat → String
  stat : String → StatRes
  renderSingle : Submission → HttpResponse → String
  renderAlbum : Submission → AlbumImage → Nat → String
  parseUrlPath : String → Option String
  getAlbum : String → Option Album

/-- Process state the consumer mutates: the two dedup sets (`knownUrls`,
`knownHashes`), the files written (most recent write first), and the
list of URLs handed to the HTTP client for content downloads. -/
structure St where
  knownUrls : List String
  knownHashes : List String
  files : List (String × List Nat)
  fetchLog : List String
  deriving DecidableEq

def canonicalImageHost : String := "i.imgur.com"

def removedPat : String := "removed.png"

def imgurBase : String := "https://i.imgur.com"

def albumPathPat : String := "/a/"

def defaultImgurExt : String := ".png"

def slashStr : String := "/"

/-- Whether `s` begins with `p` (`strings.HasPrefix`), over the
character lists so that concrete instances evaluate in the kernel. -/
def listStarts : List Char → List Char → Bool
  | _, [] => true
  | [], _ :: _ => false
  | a :: as, b :: bs => (a == b) && listStarts as bs

def strStarts (s p : String) : Bool := listStarts s.data p.data

/-- Whether `s` ends with `p` (`strings.HasSuffix`). -/
def strEnds (s p : String) : Bool := listStarts s.data.reverse p.data.reverse

/-- `checkImage` (main.go 644-677).  The height lower-bound message
reproduces the source's use of `minWidth` in the format string. -/
def checkImage (env : Env) (cfg : Config) (data : List Nat) : Bool × String :=
  if ¬cfg.parseImages then (true, "")
  else
    match env.decodeConfig data with
    | none => (false, "failed to parse image")
    | some c =>
      if c.imgType ∉ cfg.allowTypes then
        (false, "type " ++ c.imgType ++ " not allowed")
      else if cfg.noPortrait ∧ c.width < c.height then
        (false, "portrait orientation")
      else if cfg.noLandscape ∧ c.height < c.width then
        (false, "landscape orientation")
      else if cfg.noSquare ∧ c.width = c.height then
        (false, "square orientation")
      else if c.width < cfg.minWidth then
        (false, "width < " ++ toString cfg.minWidth)
      else if c.height < cfg.minHeight then
        (false, "height < " ++ toString cfg.minWidth)
      else if 0 < cfg.maxWidth ∧ cfg.maxWidth < c.width then
        (false, "width > " ++ toString cfg.maxWidth)
      else if 0 < cfg.maxHeight ∧ cfg.maxHeight < c.height then
        (false, "height > " ++ toString cfg.maxHeight)
      else (true, "")

/-- The `parseImages` wiring at main.go 169-171: image parsing is
activated by a type filter, the landscape/portrait disablements, or any
width/height bound — but not by `noSquare` alone. -/
abbrev wiresParseImages (cfg : Config) : Prop :=
  cfg.parseImages =
    (cfg.allowTypes ≠ [] ∨ cfg.noLandscape = true ∨ cfg.noPortrait = true ∨
      0 < cfg.minWidth ∨ 0 < cfg.minHeight ∨ 0 < cfg.maxWidth ∨ 0 < cfg.maxHeight : Bool)

/-- Outcome of `fetchSingleImage` for one URL. -/
inductive SingleResult
  | dupUrl
  | fetchFailed
  | notFound
  | badStatus
  | dupHash
  | tooSmall
  | tooBig
  | rejected (msg : String)
  | existsSkip
  | written (p : String)
  deriving DecidableEq

/-- The part of `fetchSingleImage` from the GET on (main.go 342-471),
acting on the state `st2` that already holds the URL insertion and the
fetch-log entry. -/
def fetchSingleBody (cfg : Config) (env : Env) (u : String) (sub : Submission)
    (st2 : St) : SingleResult × St :=
  match env.http u with
  | none => (.fetchFailed, st2)
  | some resp =>
    if resp.statusCode = 404 ∨
        (resp.finalHost = canonicalImageHost ∧ strEnds resp.finalPath removedPat) then
      (.notFound, st2)
    else if 300 ≤ resp.statusCode then (.badStatus, st2)
    else
      let data := resp.body
      if cfg.skipDuplicates ∧ env.sha data ∈ st2.knownHashes then (.dupHash, st2)
      else
        let st3 := if cfg.skipDuplicates
          then { st2 with knownHashes := env.sha data :: st2.knownHashes } else st2
        if data.length < cfg.minSize then (.tooSmall, st3)
        else if 0 < cfg.maxSize ∧ cfg.maxSize < data.length then (.tooBig, st3)
        else
          match checkImage env cfg data with
          | (false, msg) => (.rejected msg, st3)
          | (true, _) =>
            let p0 := env.renderSingle sub resp
            let p := if strStarts p0 slashStr then p0 else cfg.outputRoot ++ slashStr ++ p0
            if ¬cfg.overwrite ∧ env.stat p ≠ .notExist then (.existsSkip, st3)
            else (.written p, { st3 with files := (p, data) :: st3.files })

/-- `fetchSingleImage` (main.go 332-472): the URL dedup gate and
insertion (main.go 333-340), then the download body.  Path rendering
including extension resolution (main.go 402-447) is the external Namer
(`env.renderSingle`); the model's write always succeeds. -/
def fetchSingleImage (cfg : Config) (env : Env) (u : String) (sub : Submission)
    (st : St) : SingleResult × St :=
  if cfg.skipDuplicates ∧ u ∈ st.knownUrls then (.dupUrl, st)
  else
    let st1 := if cfg.skipDuplicates then { st with knownUrls := u :: st.knownUrls } else st
    fetchSingleBody cfg env u sub { st1 with fetchLog := st1.fetchLog ++ [u] }

/-- Outcome for one image inside an imgur album. -/
inductive AlbumImgResult
  | dupUrl
  | fetchFailed
  | notFound
  | badStatus
  | dupHash
  | tooSmall
  | tooBig
  | rejected (msg : String)
  | probeSkip
  | written (p : String)
  deriving DecidableEq

/-- The direct-content URL synthesized for an album member
(main.go 501). -/
def albumImageUrl (img : AlbumImage) : String :=
  imgurBase ++ slashStr ++ img.hash ++ img.ext

/-- One iteration of the album download loop (main.go 500-618), for the
member at 0-based position `i` (`Num` in the template is `i + 1`).
Note the overwrite guard: the source skips when the `os.Stat` probe
returns an error of any kind (`err != nil`), and proceeds to write when
the probe succeeds, i.e. when the destination already exists. -/
def fetchAlbumImage (cfg : Config) (env : Env) (sub : Submission) (i : Nat)
    (img : AlbumImage) (st : St) : AlbumImgResult × St :=
  let u := albumImageUrl img
  if cfg.skipDuplicatesInAlbums ∧ u ∈ st.knownUrls then (.dupUrl, st)
  else
    let st1 := if cfg.skipDuplicatesInAlbums
      then { st with knownUrls := u :: st.knownUrls } else st
    let st2 := { st1 with fetchLog := st1.fetchLog ++ [u] }
    match env.http u with
    | none => (.fetchFailed, st2)
    | some resp =>
      if strEnds resp.finalPath removedPat then (.notFound, st2)
      else if 300 ≤ resp.statusCode then (.badStatus, st2)
      else
        let data := resp.body
        if cfg.skipDuplicatesInAlbums ∧ env.sha data ∈ st2.knownHashes then (.dupHash, st2)
        else
          let st3 := if cfg.skipDuplicatesInAlbums
            then { st2 with knownHashes := env.sha data :: st2.knownHashes } else st2
          if data.length < cfg.minSize then (.tooSmall, st3)
          else if 0 < cfg.maxSize ∧ cfg.maxSize < data.length then (.tooBig, st3)
          else
            match checkImage env cfg data with
            | (false, msg) => (.rejected msg, st3)
            | (true, _) =>
              let p0 := env.renderAlbum sub img (i + 1)
              let p := if strStarts p0 slashStr then p0 else cfg.outputRoot ++ slashStr ++ p0
              if ¬cfg.overwrite ∧ env.stat p ≠ .ok then (.probeSkip, st3)
              else (.written p, { st3 with files := (p, data) :: st3.files })

/-- The album loop over all members, continuing past per-member skips
and failures. -/
def albumLoop (cfg : Config) (env : Env) (sub : Submission) :
    Nat → List AlbumImage → St → List AlbumImgResult × St
  | _, [], st => ([], st)
  | i, img :: rest, st =>
    let r := fetchAlbumImage cfg env sub i img st
    let rr := albumLoop cfg env sub (i + 1) rest r.2
    (r.1 :: rr.1, rr.2)

/-- The single-image URL synthesized for a non-album imgur item
(main.go 621): the fixed default extension is appended to the path
unconditionally. -/
def imgurSingleUrl (path : String) : String :=
  imgurBase ++ path ++ defaultImgurExt

/-- Outcome of processing one submission. -/
inductive SubResult
  | single (r : SingleResult)
  | album (rs : List AlbumImgResult)
  | albumSkipped
  | albumDupUrl
  | albumFailed
  | invalidUrl
  | unknownService
  | nsfwSkipped
  | scoreSkipped
  deriving DecidableEq

/-- `fetchImgur` (main.go 474-624).  `path.drop albumPathPat.length` is
`strings.TrimPrefix` under the already-checked album-path guard. -/
def fetchImgur (cfg : Config) (env : Env) (sub : Submission) (st : St) :
    SubResult × St :=
  match env.parseUrlPath sub.url with
  | none => (.invalidUrl, st)
  | some path =>
    if strStarts path albumPathPat then
      if cfg.noAlbums then (.albumSkipped, st)
      else
        let albumId := path.drop albumPathPat.length
        if cfg.skipDuplicates ∧ sub.url ∈ st.knownUrls then (.albumDupUrl, st)
        else
          let st1 := if cfg.skipDuplicates
            then { st with knownUrls := sub.url :: st.knownUrls } else st
          match env.getAlbum albumId with
          | none => (.albumFailed, st1)
          | some album =>
            let r := albumLoop cfg env sub 0 album.images st1
            (.album r.1, r.2)
    else
      let r := fetchSingleImage cfg env (imgurSingleUrl path) sub st
      (.single r.1, r.2)

/-- `fetchSubmission` (main.go 322-330). -/
def fetchSubmission (cfg : Config) (env : Env) (sub : Submission) (st : St) :
    SubResult × St :=
  if sub.postHint = "image" then
    let r := fetchSingleImage cfg env sub.url sub st
    (.single r.1, r.2)
  else if sub.domain = "imgur.com" then fetchImgur cfg env sub st
  else (.unknownService, st)

/-- One step of the consumer loop (main.go 275-283): the NSFW and score
item filters, then dispatch; the returned error is discarded. -/
def processOne (cfg : Config) (env : Env) (sub : Submission) (st : St) :
    SubResult × St :=
  if sub.nsfw ∧ ¬cfg.nsfw then (.nsfwSkipped, st)
  else if sub.score < cfg.minScore then (.scoreSkipped, st)
  else fetchSubmission cfg env sub st

/-- The consumer loop over the whole item stream: every outcome is
logged and dropped, so processing always continues to the next item. -/
def processAll (cfg : Config) (env : Env) : List Submission → St → List SubResult × St
  | [], st => ([], st)
  | sub :: rest, st =>
    let r := processOne cfg env sub st
    let rr := processAll cfg env rest r.2
    (r.1 :: rr.1, rr.2)

/-! ## Dedup engine (the check-and-insert pattern of main.go 332-340) -/

/-- The check-and-insert operation on a seen-key set, gated by its
enable flag; returns (is-duplicate, updated set). -/
def checkUrl (enabled : Bool) (k : String) (seen : List String) :
    Bool × List String :=
  if enabled then
    if k ∈ seen then (true, seen) else (false, k :: seen)
  else (false, seen)

/-- A sequence of check-and-insert calls, threading the set through. -/
def runChecks (enabled : Bool) : List String → List String → List Bool
  | [], _ => []
  | k :: ks, seen =>
    let r := checkUrl enabled k seen
    r.1 :: runChecks enabled ks r.2

/-! ## Rate-limit retry loop (main.go 223-249) -/

/-- Outcome of one listing fetch. -/
inductive FetchOutcome
  | success (l : Listing)
  | rateLimited
  | otherFailure
  deriving DecidableEq

def isSuccess : FetchOutcome → Bool
  | .success _ => true
  | _ => false

/-- The retry loop around one page fetch.  `attempt c i` is the outcome
of the `i`-th fetch of this page with cursor `c`; the loop never changes
the cursor it passes (`after[sub]` is not assigned inside the loop).
Returns the sleep durations performed before fetches, the cursor each
attempt was called with, and the index of the accepted attempt; on an
`otherFailure` the source re-acquires the throttle instead of sleeping
(main.go 246-247), so no sleep is recorded. -/
def retryLoop (throttle : Nat) (attempt : String → Nat → FetchOutcome) (c : String) :
    Nat → Nat → Nat → Option (List Nat × List String × Nat)
  | 0, _, _ => none
  | fuel + 1, i, d =>
    let sleeps := if 0 < d then [d] else []
    match attempt c i with
    | .success _ => some (sleeps, [c], i)
    | .rateLimited =>
      match retryLoop throttle attempt c fuel (i + 1) (d + throttle) with
      | none => none
      | some (ss, cs, j) => some (sleeps ++ ss, c :: cs, j)
    | .otherFailure =>
      match retryLoop throttle attempt c fuel (i + 1) d with
      | none => none
      | some (ss, cs, j) => some (sleeps ++ ss, c :: cs, j)

lemma backoff_range (T d k : Nat) :
    (d + T) :: (List.range k).map (fun j => (d + T) + (j + 1) * T) =
      (List.range (k + 1)).map (fun j => d + (j + 1) * T) := by
  rw [List.range_succ_eq_map, List.map_cons, List.map_map]
  refine List.cons_eq_cons.mpr ⟨by ring, ?_⟩
  apply List.map_congr_left
  intro j _
  simp only [Function.comp_apply, Nat.succ_eq_add_one]
  ring

lemma retryLoop_rateLimited_run (T : Nat) (hT : 0 < T)
    (attempt : String → Nat → FetchOutcome) (c : String) :
    ∀ (k i d : Nat), (∀ j, j < k → attempt c (i + j) = .rateLimited) →
    isSuccess (attempt c (i + k)) = true →
    retryLoop T attempt c (k + 1) i d =
      some ((if 0 < d then [d] else []) ++ (List.range k).map (fun j => d + (j + 1) * T),
        List.replicate (k + 1) c, i + k) := by
  intro k
  induction k with
  | zero =>
    intro i d _ hs
    rw [Nat.add_zero] at hs
    cases hatt : attempt c i with
    | success l => simp [retryLoop, hatt]
    | rateLimited => rw [hatt] at hs; simp [isSuccess] at hs
    | otherFailure => rw [hatt] at hs; simp [isSuccess] at hs
  | succ k ih =>
    intro i d hrl hs
    have h0 : attempt c i = .rateLimited := by
      have := hrl 0 (Nat.succ_pos k)
      rwa [Nat.add_zero] at this
    have hrl' : ∀ j, j < k → attempt c ((i + 1) + j) = .rateLimited := by
      intro j hj
      have := hrl (j + 1) (Nat.succ_lt_succ hj)
      rwa [show i + (j + 1) = (i + 1) + j by omega] at this
    have hs' : isSuccess (attempt c ((i + 1) + k)) = true := by
      rwa [show (i + 1) + k = i + (k + 1) by omega]
    have hrec := ih (i + 1) (d + T) hrl' hs'
    rw [show k + 1 + 1 = (k + 1) + 1 from rfl, retryLoop, h0, hrec]
    have hdT : (0 < d + T) := by omega
    rw [if_pos hdT]
    have hlist : (d + T) :: (List.range k).map (fun j => (d + T) + (j + 1) * T) =
        (List.range (k + 1)).map (fun j => d + (j + 1) * T) := backoff_range T d k
    rw [List.singleton_append, hlist, List.replicate_succ (n := k + 1)]
    rw [show (i + 1) + k = i + (k + 1) by omega]

/-- C3: when the listing fetch of a page is rate limited `k` times in a
row and then succeeds, the retry loop performs exactly the sleeps
`1*T, 2*T, ..., k*T` (one before each retry), passes the same unchanged
cursor to every attempt, and accepts the page at attempt `k`. -/
theorem rate_limited_retries_escalating_backoff (T : Nat) (hT : 0 < T)
    (attempt : String → Nat → FetchOutcome) (c : String) (k : Nat)
    (hrl : ∀ j, j < k → attempt c j = .rateLimited)
    (hs : isSuccess (attempt c k) = true) :
    retryLoop T attempt c (k + 1) 0 0 =
      some ((List.range k).map (fun j => (j + 1) * T), List.replicate (k + 1) c, k) := by
  have h := retryLoop_rateLimited_run T hT attempt c k 0 0
    (by intro j hj; rw [Nat.zero_add]; exact hrl j hj)
    (by rw [Nat.zero_add]; exact hs)
  rw [h]
  simp

/-- A fetch behaviour that is rate limited on attempts 0, 1, 2 and
succeeds on attempt 3, for any cursor. -/
def attEx : String → Nat → FetchOutcome := fun _ j =>
  if j < 3 then .rateLimited else .success pageLast

theorem rate_limited_retries_witness :
    retryLoop 2 attEx "" 4 0 0 = some ([2, 4, 6], ["", "", "", ""], 3) := by
  have h := rate_limited_retries_escalating_backoff 2 (by decide) attEx "" 3
    (by decide) (by decide)
  rw [h]
  decide

/-! ## Dedup engine results -/

/-- The duplicate verdicts returned for the calls whose key is `k`, in
call order. -/
def resultsFor (enabled : Bool) (k : String) (ks : List String)
    (seen : List String) : List Bool :=
  ((ks.zip (runChecks enabled ks seen)).filter (fun p => p.1 == k)).map Prod.snd

lemma runChecks_length (enabled : Bool) :
    ∀ (ks : List String) (seen : List String),
      (runChecks enabled ks seen).length = ks.length := by
  intro ks
  induction ks with
  | nil => intro seen; rfl
  | cons a ks ih => intro seen; simp [runChecks, ih]

lemma resultsFor_cons (enabled : Bool) (k a : String) (ks seen : List String) :
    resultsFor enabled k (a :: ks) seen =
      (if a = k then [(checkUrl enabled a seen).1] else []) ++
        resultsFor enabled k ks (checkUrl enabled a seen).2 := by
  by_cases h : a = k
  · simp [resultsFor, runChecks, List.filter_cons, h]
  · simp [resultsFor, runChecks, List.filter_cons, h]

lemma resultsFor_mem (k : String) :
    ∀ (ks seen : List String), k ∈ seen →
      resultsFor true k ks seen = List.replicate (ks.count k) true := by
  intro ks
  induction ks with
  | nil => intro seen _; rfl
  | cons a ks ih =>
    intro seen hmem
    rw [resultsFor_cons]
    by_cases hak : a = k
    · subst hak
      have hc : checkUrl true a seen = (true, seen) := by
        simp [checkUrl, hmem]
      rw [if_pos rfl, hc]
      rw [ih seen hmem]
      simp [List.count_cons, List.replicate_succ]
    · rw [if_neg hak, List.nil_append]
      have hk2 : k ∈ (checkUrl true a seen).2 := by
        by_cases has : a ∈ seen
        · simpa [checkUrl, has] using hmem
        · simp [checkUrl, has, List.mem_cons]
          exact Or.inr hmem
      rw [ih _ hk2]
      have : (k == a) = false := by
        simp [beq_iff_eq]
        exact fun h => hak h.symm
      simp [List.count_cons, this, hak]

lemma resultsFor_not_mem (k : String) :
    ∀ (ks seen : List String), k ∉ seen →
      resultsFor true k ks seen =
        (if ks.count k = 0 then []
         else false :: List.replicate (ks.count k - 1) true) := by
  intro ks
  induction ks with
  | nil => intro seen _; simp [resultsFor]
  | cons a ks ih =>
    intro seen hnot
    rw [resultsFor_cons]
    by_cases hak : a = k
    · subst hak
      have hc : checkUrl true a seen = (false, a :: seen) := by
        simp [checkUrl, hnot]
      rw [if_pos rfl, hc]
      rw [resultsFor_mem a ks (a :: seen) (List.mem_cons_self a seen)]
      simp [List.count_cons]
    · rw [if_neg hak, List.nil_append]
      have hk2 : k ∉ (checkUrl true a seen).2 := by
        by_cases has : a ∈ seen
        · simpa [checkUrl, has] using hnot
        · simp [checkUrl, has, List.mem_cons]
          exact ⟨fun h => hak h.symm, hnot⟩
      rw [ih _ hk2]
      have : (k == a) = false := by
        simp [beq_iff_eq]
        exact fun h => hak h.symm
      simp [List.count_cons, this, hak]

lemma runChecks_disabled :
    ∀ (ks seen : List String), runChecks false ks seen = List.replicate ks.length false := by
  intro ks
  induction ks with
  | nil => intro seen; rfl
  | cons a ks ih =>
    intro seen
    simp [runChecks, checkUrl, ih, List.replicate_succ]

/-- C4: the URL dedup step: a fresh key is inserted and reported as not
a duplicate; a present key is reported as a duplicate and the set is not
mutated; over any whole call sequence a key absent from the initial set
gets the "not a duplicate" verdict exactly once (its first call) and
"duplicate" at every later call; with the stage disabled no call ever
reports a duplicate. -/
theorem url_dedup_check_and_insert (k : String) (seen : List String)
    (ks : List String) (hnot : k ∉ seen) :
    checkUrl true k seen = (false, k :: seen)
    ∧ (∀ s, k ∈ s → checkUrl true k s = (true, s))
    ∧ resultsFor true k ks seen =
        (if ks.count k = 0 then []
         else false :: List.replicate (ks.count k - 1) true)
    ∧ (∀ ks' s, runChecks false ks' s = List.replicate ks'.length false) :=
  ⟨by simp [checkUrl, hnot], fun s hs => by simp [checkUrl, hs],
    resultsFor_not_mem k ks seen hnot, runChecks_disabled⟩

def keyEx : String := "u"

def keysEx : List String := ["u", "v", "u"]

theorem url_dedup_witness :
    resultsFor true keyEx keysEx [] =
      (if keysEx.count keyEx = 0 then []
       else false :: List.replicate (keysEx.count keyEx - 1) true) :=
  (url_dedup_check_and_insert keyEx [] keysEx (by decide)).2.2.1

/-! ## Content validator -/

/-- C6: a 100x50 image whose type passes the allow-list and whose
dimensions satisfy every configured min/max bound is rejected as
"landscape orientation" exactly when the landscape orientation is
disabled, and accepted otherwise. -/
theorem validator_landscape_100x50 (cfg : Config) (env : Env) (data : List Nat)
    (t : String)
    (hw : wiresParseImages cfg)
    (hdec : env.decodeConfig data = some ⟨100, 50, t⟩)
    (ht : t ∈ cfg.allowTypes)
    (hminw : cfg.minWidth ≤ 100) (hminh : cfg.minHeight ≤ 50)
    (hmaxw : cfg.maxWidth = 0 ∨ 100 ≤ cfg.maxWidth)
    (hmaxh : cfg.maxHeight = 0 ∨ 50 ≤ cfg.maxHeight) :
    (cfg.noLandscape = true → checkImage env cfg data = (false, "landscape orientation"))
    ∧ (cfg.noLandscape = false → checkImage env cfg data = (true, "")) := by
  have htne : cfg.allowTypes ≠ [] := List.ne_nil_of_mem ht
  have hpi : cfg.parseImages = true := by
    unfold wiresParseImages at hw
    rw [hw]
    simp [htne]
  have hminw2 : ¬((100 : Nat) < cfg.minWidth) := by omega
  have hminh2 : ¬((50 : Nat) < cfg.minHeight) := by omega
  have hmaxw2 : ¬(0 < cfg.maxWidth ∧ cfg.maxWidth < 100) := by
    rcases hmaxw with h | h <;> (rintro ⟨h1, h2⟩; omega)
  have hmaxh2 : ¬(0 < cfg.maxHeight ∧ cfg.maxHeight < 50) := by
    rcases hmaxh with h | h <;> (rintro ⟨h1, h2⟩; omega)
  constructor
  · intro hnl
    simp [checkImage, hpi, hdec, ht, hnl, hminw2, hminh2, hmaxw2, hmaxh2]
  · intro hnl
    simp [checkImage, hpi, hdec, ht, hnl, hminw2, hminh2, hmaxw2, hmaxh2]

/-- A configuration with only the landscape orientation disabled, one
allowed type, no bounds; image parsing is wired active. -/
def cfgLand : Config :=
  { skipDuplicates := true, skipDuplicatesInAlbums := false, noAlbums := false,
    overwrite := false, nsfw := false, quiet := false, minScore := 0,
    minSize := 0, maxSize := 0, minWidth := 0, maxWidth := 0, minHeight := 0,
    maxHeight := 0, noPortrait := false, noLandscape := true, noSquare := false,
    parseImages := true, allowTypes := ["png"], outputRoot := "out" }

/-- An environment whose codec decodes every payload as a 100x50 png. -/
def envDec : Env :=
  { http := fun _ => none, decodeConfig := fun _ => some ⟨100, 50, "png"⟩,
    sha := fun _ => "", stat := fun _ => .notExist,
    renderSingle := fun _ _ => "", renderAlbum := fun _ _ _ => "",
    parseUrlPath := fun _ => none, getAlbum := fun _ => none }

theorem validator_landscape_witness :
    checkImage envDec cfgLand [] = (false, "landscape orientation") :=
  (validator_landscape_100x50 cfgLand envDec [] "png" (by decide) rfl
    (by decide) (by decide) (by decide) (Or.inl rfl) (Or.inl rfl)).1 rfl

/-- The configuration a `-orientation portrait,landscape` run produces
with no other filter: only `noSquare` is set, so image parsing stays
inactive (main.go 169 does not consult `noSquare`). -/
def cfgSquareOnly : Config :=
  { skipDuplicates := true, skipDuplicatesInAlbums := false, noAlbums := false,
    overwrite := false, nsfw := false, quiet := false, minScore := 0,
    minSize := 0, maxSize := 0, minWidth := 0, maxWidth := 0, minHeight := 0,
    maxHeight := 0, noPortrait := false, noLandscape := false, noSquare := true,
    parseImages := false, allowTypes := [], outputRoot := "out" }

/-- C10 counterexample: an orientation constraint (`noSquare`) is
configured and no type filter is given, yet a decodable image is
accepted — the validator is inactive, contradicting the claim that every
decodable image is rejected with a type-not-allowed reason. -/
theorem square_only_no_type_counterexample :
    wiresParseImages cfgSquareOnly
    ∧ cfgSquareOnly.noSquare = true
    ∧ cfgSquareOnly.allowTypes = []
    ∧ (envDec.decodeConfig []).isSome = true
    ∧ checkImage envDec cfgSquareOnly [] = (true, "") := by
  refine ⟨by decide, rfl, rfl, rfl, rfl⟩

/-- C10 (amended): when a constraint that activates image parsing is
configured (landscape/portrait disablement or a width/height bound) and
the allowed-type set is empty, every decodable image is rejected with a
type-not-allowed reason; `noSquare` alone activates nothing. -/
theorem empty_type_filter_rejects_all (cfg : Config) (env : Env) (data : List Nat)
    (c : ImgCfg) (hw : wiresParseImages cfg) (hempty : cfg.allowTypes = [])
    (hcons : cfg.noLandscape = true ∨ cfg.noPortrait = true ∨ 0 < cfg.minWidth ∨
      0 < cfg.minHeight ∨ 0 < cfg.maxWidth ∨ 0 < cfg.maxHeight)
    (hdec : env.decodeConfig data = some c) :
    checkImage env cfg data = (false, "type " ++ c.imgType ++ " not allowed") := by
  have hpi : cfg.parseImages = true := by
    unfold wiresParseImages at hw
    rw [hw]
    rcases hcons with h | h | h | h | h | h <;> simp [h]
  have hnotin : c.imgType ∉ cfg.allowTypes := by rw [hempty]; simp
  simp [checkImage, hpi, hdec, hnotin]

/-- Landscape disabled, no type filter given: parsing is wired active
and the allow-list is empty. -/
def cfgNoTypes : Config :=
  { skipDuplicates := true, skipDuplicatesInAlbums := false, noAlbums := false,
    overwrite := false, nsfw := false, quiet := false, minScore := 0,
    minSize := 0, maxSize := 0, minWidth := 0, maxWidth := 0, minHeight := 0,
    maxHeight := 0, noPortrait := false, noLandscape := true, noSquare := false,
    parseImages := true, allowTypes := [], outputRoot := "out" }

theorem empty_type_filter_witness :
    checkImage envDec cfgNoTypes [] = (false, "type " ++ "png" ++ " not allowed") :=
  empty_type_filter_rejects_all cfgNoTypes envDec [] ⟨100, 50, "png"⟩
    (by decide) rfl (Or.inl rfl) rfl

/-! ## Content fetcher classification and per-item skips -/

lemma processAll_length (cfg : Config) (env : Env) :
    ∀ (subs : List Submission) (st : St),
      (processAll cfg env subs st).1.length = subs.length := by
  intro subs
  induction subs with
  | nil => intro st; rfl
  | cons a subs ih => intro st; simp [processAll, ih]

/-- The download body never touches the seen-URL set or the fetch log. -/
lemma fetchSingleBody_preserves (cfg : Config) (env : Env) (u : String)
    (sub : Submission) (st2 : St) :
    ((fetchSingleBody cfg env u sub st2).2).knownUrls = st2.knownUrls
    ∧ ((fetchSingleBody cfg env u sub st2).2).fetchLog = st2.fetchLog := by
  unfold fetchSingleBody
  cases env.http u with
  | none => exact ⟨rfl, rfl⟩
  | some resp =>
    simp only
    repeat' split
    all_goals simp

/-- C5: a single-image fetch whose response is a 404, or lands on the
canonical image host at a removed-placeholder path, is classified
`notFound`; any other response with status at least 300 is classified
`badStatus`; in both cases no file is written, and the consumer loop
still processes every submission of the stream (per-item skips never
abort the crawl). -/
theorem single_fetch_skip_classification (cfg : Config) (env : Env) (u : String)
    (sub : Submission) (st : St) (resp : HttpResponse)
    (hnd : ¬(cfg.skipDuplicates ∧ u ∈ st.knownUrls))
    (hhttp : env.http u = some resp) :
    ((resp.statusCode = 404 ∨
        (resp.finalHost = canonicalImageHost ∧ strEnds resp.finalPath removedPat)) →
      (fetchSingleImage cfg env u sub st).1 = .notFound
      ∧ ((fetchSingleImage cfg env u sub st).2).files = st.files)
    ∧ (¬(resp.statusCode = 404 ∨
        (resp.finalHost = canonicalImageHost ∧ strEnds resp.finalPath removedPat)) →
      300 ≤ resp.statusCode →
      (fetchSingleImage cfg env u sub st).1 = .badStatus
      ∧ ((fetchSingleImage cfg env u sub st).2).files = st.files)
    ∧ (∀ subs st0, (processAll cfg env subs st0).1.length = subs.length) := by
  refine ⟨?_, ?_, processAll_length cfg env⟩
  · intro hcls
    by_cases hsd : cfg.skipDuplicates = true
    · have hnm : u ∉ st.knownUrls := fun h => hnd ⟨hsd, h⟩
      constructor <;>
        simp [fetchSingleImage, fetchSingleBody, hsd, hnm, hhttp, hcls]
    · have hsd2 : cfg.skipDuplicates = false := by
        cases h : cfg.skipDuplicates with
        | false => rfl
        | true => exact absurd h hsd
      constructor <;>
        simp [fetchSingleImage, fetchSingleBody, hsd2, hhttp, hcls]
  · intro hncls hst
    by_cases hsd : cfg.skipDuplicates = true
    · have hnm : u ∉ st.knownUrls := fun h => hnd ⟨hsd, h⟩
      constructor <;>
        simp [fetchSingleImage, fetchSingleBody, hsd, hnm, hhttp, hncls, hst]
    · have hsd2 : cfg.skipDuplicates = false := by
        cases h : cfg.skipDuplicates with
        | false => rfl
        | true => exact absurd h hsd
      constructor <;>
        simp [fetchSingleImage, fetchSingleBody, hsd2, hhttp, hncls, hst]

/-- Baseline configuration: flag defaults (single-URL dedup on, no
filters, overwrite off). -/
def cfgDefault : Config :=
  { skipDuplicates := true, skipDuplicatesInAlbums := false, noAlbums := false,
    overwrite := false, nsfw := false, quiet := false, minScore := 0,
    minSize := 0, maxSize := 0, minWidth := 0, maxWidth := 0, minHeight := 0,
    maxHeight := 0, noPortrait := false, noLandscape := false, noSquare := false,
    parseImages := false, allowTypes := [], outputRoot := "out" }

def stEmpty : St := ⟨[], [], [], []⟩

def respNF : HttpResponse := ⟨404, "example.com", "/img", "", [1]⟩

/-- Environment answering every GET with a 404 response. -/
def env404 : Env :=
  { http := fun _ => some respNF, decodeConfig := fun _ => none,
    sha := fun _ => "", stat := fun _ => .notExist,
    renderSingle := fun _ _ => "", renderAlbum := fun _ _ _ => "",
    parseUrlPath := fun _ => none, getAlbum := fun _ => none }

def urlEx : String := "http://example.com/img"

theorem single_fetch_skip_witness :
    (fetchSingleImage cfgDefault env404 urlEx subEx1 stEmpty).1 = .notFound
    ∧ ((fetchSingleImage cfgDefault env404 urlEx subEx1 stEmpty).2).files = stEmpty.files :=
  (single_fetch_skip_classification cfgDefault env404 urlEx subEx1 stEmpty respNF
    (by simp [cfgDefault, stEmpty]) rfl).1 (Or.inl rfl)

/-- C9: with URL dedup enabled, a fresh URL is inserted into the
seen-URL set and the download is attempted in the same call, whatever
the outcome; afterwards any call with that URL (in particular after a
failed first download) is skipped as a duplicate, with no state change
and no new download attempt. -/
theorem url_consumed_before_fetch (cfg : Config) (env : Env) (u : String)
    (sub : Submission) (st : St)
    (hsd : cfg.skipDuplicates = true) (hnew : u ∉ st.knownUrls) :
    u ∈ ((fetchSingleImage cfg env u sub st).2).knownUrls
    ∧ ((fetchSingleImage cfg env u sub st).2).fetchLog = st.fetchLog ++ [u]
    ∧ (∀ st2 : St, u ∈ st2.knownUrls →
        fetchSingleImage cfg env u sub st2 = (.dupUrl, st2)) := by
  have hnd : ¬(cfg.skipDuplicates ∧ u ∈ st.knownUrls) := fun h => hnew h.2
  have hred : (fetchSingleImage cfg env u sub st).2 =
      (fetchSingleBody cfg env u sub
        { st with knownUrls := u :: st.knownUrls,
                  fetchLog := st.fetchLog ++ [u] }).2 := by
    simp [fetchSingleImage, hsd, hnew]
  have hpres := fetchSingleBody_preserves cfg env u sub
    { st with knownUrls := u :: st.knownUrls, fetchLog := st.fetchLog ++ [u] }
  refine ⟨?_, ?_, fun st2 hm => by simp [fetchSingleImage, hsd, hm]⟩
  · rw [hred, hpres.1]
    exact List.mem_cons_self u st.knownUrls
  · rw [hred, hpres.2]

/-- Environment whose every GET fails with a transport error. -/
def envFail : Env :=
  { http := fun _ => none, decodeConfig := fun _ => none,
    sha := fun _ => "", stat := fun _ => .notExist,
    renderSingle := fun _ _ => "", renderAlbum := fun _ _ _ => "",
    parseUrlPath := fun _ => none, getAlbum := fun _ => none }

theorem url_consumed_witness :
    urlEx ∈ ((fetchSingleImage cfgDefault envFail urlEx subEx1 stEmpty).2).knownUrls
    ∧ ((fetchSingleImage cfgDefault envFail urlEx subEx1 stEmpty).2).fetchLog =
        stEmpty.fetchLog ++ [urlEx]
    ∧ (∀ st2 : St, urlEx ∈ st2.knownUrls →
        fetchSingleImage cfgDefault envFail urlEx subEx1 st2 = (.dupUrl, st2)) :=
  url_consumed_before_fetch cfgDefault envFail urlEx subEx1 stEmpty rfl
    (by simp [stEmpty])

/-! ## Imgur routing -/

def cxPath : String := "/abc.jpg"

def urlAppended : String := "https://i.imgur.com/abc.jpg.png"

def urlKept : String := "https://i.imgur.com/abc.jpg"

/-- An imgur submission whose URL path already carries an extension. -/
def subImgur : Submission :=
  ⟨"t2", "id2", false, "", "imgur.com", 1, false, "https://imgur.com/abc.jpg", "p2", "r2"⟩

/-- URL parsing resolves the submission URL to a non-album path that
already ends in an extension; the GET fails so only routing happens. -/
def envImgur : Env :=
  { http := fun _ => none, decodeConfig := fun _ => none,
    sha := fun _ => "", stat := fun _ => .notExist,
    renderSingle := fun _ _ => "", renderAlbum := fun _ _ _ => "",
    parseUrlPath := fun _ => some cxPath, getAlbum := fun _ => none }

/-- C7 counterexample: a non-album imgur item whose URL already carries
the extension `.jpg` is fetched at the URL with `.png` appended on top,
not at the unchanged URL the claim promises. -/
theorem imgur_ext_appended_counterexample :
    ((fetchImgur cfgDefault envImgur subImgur stEmpty).2).fetchLog = [urlAppended]
    ∧ urlAppended ≠ urlKept := by
  exact ⟨by decide, by decide⟩

/-- C7 (amended): a non-album imgur item is routed through the
single-image path at the synthesized URL `imgurBase ++ path ++
defaultImgurExt` — the fixed default extension is appended to the path
unconditionally, also when the URL already carries an extension. -/
theorem imgur_single_route_unconditional_ext (cfg : Config) (env : Env)
    (sub : Submission) (st : St) (path : String)
    (hp : env.parseUrlPath sub.url = some path)
    (hna : ¬strStarts path albumPathPat) :
    fetchImgur cfg env sub st =
      (SubResult.single (fetchSingleImage cfg env (imgurSingleUrl path) sub st).1,
        (fetchSingleImage cfg env (imgurSingleUrl path) sub st).2)
    ∧ imgurSingleUrl path = imgurBase ++ path ++ defaultImgurExt := by
  refine ⟨?_, rfl⟩
  simp [fetchImgur, hp, hna]

theorem imgur_single_route_witness :
    fetchImgur cfgDefault envImgur subImgur stEmpty =
      (SubResult.single
        (fetchSingleImage cfgDefault envImgur (imgurSingleUrl cxPath) subImgur stEmpty).1,
        (fetchSingleImage cfgDefault envImgur (imgurSingleUrl cxPath) subImgur stEmpty).2)
    ∧ imgurSingleUrl cxPath = imgurBase ++ cxPath ++ defaultImgurExt :=
  imgur_single_route_unconditional_ext cfgDefault envImgur subImgur stEmpty cxPath
    rfl (by decide)

/-! ## Album writer overwrite guard -/

def imgA : AlbumImage := ⟨"h1", "t", ".jpg", "d"⟩

def respOkBytes : HttpResponse := ⟨200, "i.imgur.com", "/h1.jpg", "", [7]⟩

def pAlb : String := "/alb/1.jpg"

/-- Album environment whose destination probe says the file exists. -/
def envAlbumExists : Env :=
  { http := fun _ => some respOkBytes, decodeConfig := fun _ => none,
    sha := fun _ => "", stat := fun _ => .ok,
    renderSingle := fun _ _ => "",
    renderAlbum := fun _ _ n => "/alb/" ++ toString n ++ ".jpg",
    parseUrlPath := fun _ => none, getAlbum := fun _ => none }

/-- Album environment whose destination probe says the file is absent. -/
def envAlbumMissing : Env :=
  { http := fun _ => some respOkBytes, decodeConfig := fun _ => none,
    sha := fun _ => "", stat := fun _ => .notExist,
    renderSingle := fun _ _ => "",
    renderAlbum := fun _ _ n => "/alb/" ++ toString n ++ ".jpg",
    parseUrlPath := fun _ => none, getAlbum := fun _ => none }

/-- C2: the album writer's overwrite guard is inverted (main.go
600-606): with overwrite disabled it writes — replacing the file — when
the destination already exists (the `os.Stat` probe succeeds), and
skips when the destination does not exist; the opposite of the
single-image writer (main.go 453-459) and of the guard's own log
message. -/
theorem album_overwrite_probe_inverted :
    cfgDefault.overwrite = false
    ∧ envAlbumExists.stat pAlb = .ok
    ∧ (fetchAlbumImage cfgDefault envAlbumExists subImgur 0 imgA stEmpty).1 =
        .written pAlb
    ∧ envAlbumMissing.stat pAlb = .notExist
    ∧ (fetchAlbumImage cfgDefault envAlbumMissing subImgur 0 imgA stEmpty).1 =
        .probeSkip := by
  exact ⟨rfl, rfl, by decide, rfl, by decide⟩

end RID
